import Mathlib

/-!
Shallow embedding of the knowledge-graph component
(`src/frontend/components/knowledge-graph.tsx`) of the Mumbai-Hacks-Veefly
repository, together with proofs settling the frozen claims about its
filtering, radius computation, layout initialization, physics simulation,
and interaction handlers.

Conventions of the embedding:
* JavaScript numbers are modelled by `JSVal`: either a finite rational or
  one of the non-finite values `nan`, `inf`, `ninf`.  All code paths the
  claims touch pass their numbers through `sanitizeValue` before doing
  arithmetic, so post-sanitization arithmetic is carried out in `ℚ`.
* `Math.sqrt` is irrational in general, so the simulation is parameterized
  by a square-root oracle `sqrtFn : ℚ → ℚ` (field of `SimConfig`).  The
  boundary/freeze theorems hold for every oracle; concrete runs use
  `ratSqrt`, which agrees with the real square root on the perfect squares
  appearing in the concrete inputs.
* `Math.cos`/`Math.sin` evaluate at rational multiples of π during layout
  initialization, so the initializer takes oracles `cosPi sinPi : ℚ → ℚ`
  whose argument is the coefficient of π.  `Math.random` is modelled by a
  stream `rnd : ℕ → ℚ`; the i-th node consumes entries `2*i` and `2*i+1`.
-/

attribute [local semireducible] Rat.add Rat.mul Rat.sub Rat.inv Rat.ofScientific

/-- A JavaScript `number` as relevant here: finite (exact rational) or one
of the non-finite values `NaN`, `Infinity`, `-Infinity`. -/
inductive JSVal where
  | nan : JSVal
  | inf : JSVal
  | ninf : JSVal
  | fin : ℚ → JSVal
deriving DecidableEq, Repr

/-- `GraphNode` from `src/frontend/lib/graph-data.ts` (the fields the
component reads). -/
structure GraphNode where
  id : String
  content : String
  author : String
  platform : String
  url : String
  category : String
  credibilityScore : JSVal
  engagementWeight : JSVal
  verificationStatus : String
deriving DecidableEq, Repr

/-- `GraphEdge` from `src/frontend/lib/graph-data.ts`. -/
structure GraphEdge where
  source : String
  target : String
  weight : JSVal
  relationshipType : String
  strengthCategory : String
  similarityScore : JSVal
deriving DecidableEq, Repr

/-- Apply the optional lower bound of `sanitizeValue`
(`if (min !== undefined) result = Math.max(min, result)`). -/
def applyLo : Option ℚ → ℚ → ℚ
  | none, q => q
  | some l, q => max l q

/-- Apply the optional upper bound of `sanitizeValue`
(`if (max !== undefined) result = Math.min(max, result)`). -/
def applyHi : Option ℚ → ℚ → ℚ
  | none, q => q
  | some h, q => min h q

/-- `sanitizeValue` (knowledge-graph.tsx lines 106-114): non-finite input
is replaced by the fallback; a finite input is clamped by the optional
bounds, lower bound first. -/
def sanitizeValue (value : JSVal) (fallback : ℚ) (lo hi : Option ℚ) : ℚ :=
  match value with
  | .fin q => applyHi hi (applyLo lo q)
  | _ => fallback

/-- Clamp of a finite value to `[lo, hi]` (the shape `sanitizeValue` takes
on finite input when both bounds are given). -/
def clampQ (lo hi q : ℚ) : ℚ := min hi (max lo q)

/-- Shorthand for `sanitizeValue` on a value already known finite, with
both bounds present — the form used throughout the simulation loop. -/
def sanQ (v fb lo hi : ℚ) : ℚ := sanitizeValue (.fin v) fb (some lo) (some hi)

/-- Case-insensitive substring test modelling
`hay.toLowerCase().includes(needle.toLowerCase())`.
`matchAt` checks that `needle` occurs at the head of `hay`. -/
def matchAt : List Char → List Char → Bool
  | [], _ => true
  | _ :: _, [] => false
  | a :: as, b :: bs => a == b && matchAt as bs

def hasSub (needle : List Char) : List Char → Bool
  | [] => matchAt needle []
  | c :: rest => matchAt needle (c :: rest) || hasSub needle rest

def lowerStr (s : String) : List Char := s.data.map Char.toLower

def includesCI (hay needle : String) : Bool :=
  hasSub (lowerStr needle) (lowerStr hay)

/-- The filter-panel state of the component: `searchQuery`,
`categoryFilter`, `verificationFilter`, `credibilityThreshold`
(lines 130-133; the threshold is the 0-100 slider integer). -/
structure FilterState where
  searchQuery : String
  categoryFilter : String
  verificationFilter : String
  credibilityThreshold : ℕ
deriving DecidableEq, Repr

/-- The default filter state (initial React state / `clearFilters`). -/
def noFilter : FilterState := ⟨"", "all", "all", 0⟩

/-- JavaScript `<` between a possibly non-finite score and a finite
threshold: `NaN < t` and `Infinity < t` are false, `-Infinity < t` is
true. -/
def jsLtQ (v : JSVal) (t : ℚ) : Bool :=
  match v with
  | .fin q => decide (q < t)
  | .nan => false
  | .inf => false
  | .ninf => true

/-- The node predicate of `filteredNodes` (lines 138-153), as the same
sequence of early-return checks. -/
def nodePassesFilter (fs : FilterState) (n : GraphNode) : Bool :=
  if fs.searchQuery != "" && !includesCI n.author fs.searchQuery
      && !includesCI n.content fs.searchQuery then false
  else if fs.categoryFilter != "all" && n.category != fs.categoryFilter then false
  else if fs.verificationFilter != "all"
      && n.verificationStatus != fs.verificationFilter then false
  else if jsLtQ n.credibilityScore ((fs.credibilityThreshold : ℚ) / 100) then false
  else true

/-- `filteredNodes` (line 138). -/
def filteredNodes (nodes : List GraphNode) (fs : FilterState) : List GraphNode :=
  nodes.filter (nodePassesFilter fs)

/-- `filteredNodeIds` (line 155), as a list of ids (the `Set` only ever
answers membership queries). -/
def filteredNodeIds (nodes : List GraphNode) (fs : FilterState) : List String :=
  (filteredNodes nodes fs).map (fun n => n.id)

/-- `filteredEdges` (lines 156-158): keep an edge exactly when both
endpoint ids belong to the filtered node set. -/
def filteredEdges (nodes : List GraphNode) (edges : List GraphEdge)
    (fs : FilterState) : List GraphEdge :=
  edges.filter (fun e =>
    (filteredNodeIds nodes fs).contains e.source
      && (filteredNodeIds nodes fs).contains e.target)

/-- The incident-edge count of `getNodeRadius` (line 162), over the full
(unfiltered) `edges` prop. -/
def connectionCount (edges : List GraphEdge) (n : GraphNode) : ℕ :=
  (edges.filter (fun e => e.source == n.id || e.target == n.id)).length

/-- `getNodeRadius` (lines 160-180). -/
def getNodeRadius (edges : List GraphEdge) (n : GraphNode) : ℚ :=
  let baseRadius : ℚ := min (max 16 (12 + (connectionCount edges n : ℚ) * 2)) 40
  let weightMultiplier : ℚ :=
    1 + sanitizeValue n.engagementWeight 0.5 (some 0) (some 1) * 0.6
  let credibilityBonus : ℚ :=
    if (0.8 : ℚ) < sanitizeValue n.credibilityScore 0.5 (some 0) (some 1)
    then 1.2 else 1
  let radius : ℚ := min (baseRadius * weightMultiplier * credibilityBonus) 50
  sanitizeValue (.fin radius) 20 (some 12) (some 50)

/-- The connection count shown in the Selected Node Info Panel
(line 1132) — computed from the full `edges` prop. -/
def panelConnections (edges : List GraphEdge) (n : GraphNode) : ℕ :=
  (edges.filter (fun e => e.source == n.id || e.target == n.id)).length

/-- The per-category node group (`categoryGroups[c]`, lines 187-191):
nodes of the (already filtered) list whose category is `c`, in input
order. -/
def groupOf (ns : List GraphNode) (c : String) : List GraphNode :=
  ns.filter (fun n => n.category == c)

/-- The mean sanitized credibility of a group — the sort key of
`sortedCategories` (lines 198-199):
`group.reduce((sum, n) => sum + sanitizeValue(n.credibilityScore, 0.5), 0) / group.length`. -/
def avgCred (g : List GraphNode) : ℚ :=
  (g.foldl (fun s n => s + sanitizeValue n.credibilityScore 0.5 none none) 0)
    / (g.length : ℚ)

def catKey (ns : List GraphNode) (c : String) : ℚ := avgCred (groupOf ns c)

/-- `Object.keys(categoryGroups)` (line 193): category names in first-
occurrence (insertion) order. -/
def categoriesOf (ns : List GraphNode) : List String :=
  ns.foldl (fun acc n => if acc.contains n.category then acc else acc ++ [n.category]) []

/-- Stable insertion step for a descending sort: place `c` before the
first element whose key is not larger than `c`'s. -/
def insertDesc (key : String → ℚ) (c : String) : List String → List String
  | [] => [c]
  | d :: ds => if key d ≤ key c then c :: d :: ds else d :: insertDesc key c ds

/-- Stable descending sort by `key` — the unique stable order mandated
for `categories.sort((a, b) => avgB - avgA)` by the ECMAScript
specification (`Array.prototype.sort` is stable and the comparator is a
consistent total preorder). -/
def sortDesc (key : String → ℚ) : List String → List String
  | [] => []
  | c :: cs => insertDesc key c (sortDesc key cs)

/-- `sortedCategories` (lines 197-201): category names sorted by
descending mean sanitized credibility, ties keeping insertion order. -/
def sortedCategories (ns : List GraphNode) : List String :=
  sortDesc (catKey ns) (categoriesOf ns)

/-- `NodePosition` (lines 30-38). -/
structure NodePos where
  x : ℚ
  y : ℚ
  vx : ℚ
  vy : ℚ
  node : GraphNode
  radius : ℚ
  weightedRadius : ℚ
deriving DecidableEq, Repr

/-- Layout initialization (the effect at lines 182-232), producing one
`NodePos` per filtered node.  Trigonometric functions are supplied as
oracles on the coefficient of π (all angles in the source are rational
multiples of π), `Math.random` as the stream `rnd`. -/
def initPositions (nodes : List GraphNode) (edges : List GraphEdge) (fs : FilterState)
    (w h : ℚ) (cosPi sinPi : ℚ → ℚ) (rnd : ℕ → ℚ) : List NodePos :=
  let fNodes := filteredNodes nodes fs
  let centerX := w / 2
  let centerY := h / 2
  let cats := categoriesOf fNodes
  let angleStepCo : ℚ := 2 / max (cats.length : ℚ) 1
  let sorted := sortedCategories fNodes
  fNodes.enum.map (fun p =>
    let i := p.1
    let node := p.2
    let categoryIndex := sorted.indexOf node.category
    let categoryNodes := groupOf fNodes node.category
    let nodeIndexInCategory := categoryNodes.indexOf node
    let radius := getNodeRadius edges node
    let credibility := sanitizeValue node.credibilityScore 0.5 (some 0) (some 1)
    let distanceFromCenter := 200 + (1 - credibility) * 200
    let baseAngleCo := (categoryIndex : ℚ) * angleStepCo - 1/2
    let spreadAngleCo := baseAngleCo +
      ((nodeIndexInCategory : ℚ) / max ((categoryNodes.length : ℚ) - 1) 1 - 0.5)
        * (angleStepCo * 0.8)
    let jitterX := (rnd (2 * i) - 0.5) * 60
    let jitterY := (rnd (2 * i + 1) - 0.5) * 60
    { x := sanQ (centerX + cosPi spreadAngleCo * distanceFromCenter + jitterX)
            centerX 50 (w - 50),
      y := sanQ (centerY + sinPi spreadAngleCo * distanceFromCenter + jitterY)
            centerY 50 (h - 50),
      vx := 0, vy := 0, node := node, radius := radius, weightedRadius := radius })

/-- The render radius the initializer stores for node `n` (projection of
`initPositions` used to state radius independence from filters). -/
def initRadius (nodes : List GraphNode) (edges : List GraphEdge) (fs : FilterState)
    (w h : ℚ) (cosPi sinPi : ℚ → ℚ) (rnd : ℕ → ℚ) (n : GraphNode) : Option ℚ :=
  ((initPositions nodes edges fs w h cosPi sinPi rnd).find?
    (fun p => p.node == n)).map (fun p => p.radius)

/-- Simulation environment: canvas dimensions and the `Math.sqrt`
oracle. -/
structure SimConfig where
  width : ℚ
  height : ℚ
  sqrtFn : ℚ → ℚ

/-- Fuel-driven bisection for the natural square root (kernel-reducible
stand-in for `Nat.sqrt`): maintains `lo ≤ √n < hi + 1`. -/
def sqrtBis (n : ℕ) : ℕ → ℕ → ℕ → ℕ
  | 0, lo, _ => lo
  | fuel + 1, lo, hi =>
    if hi ≤ lo then lo
    else
      let mid := (lo + hi + 1) / 2
      if mid * mid ≤ n then sqrtBis n fuel mid hi else sqrtBis n fuel lo (mid - 1)

def isqrt (n : ℕ) : ℕ := sqrtBis n n 0 n

/-- Rational square-root oracle, exact on ratios of perfect squares; the
concrete runs below only query it there, where it agrees with the real
`Math.sqrt`. -/
def ratSqrt (q : ℚ) : ℚ := (isqrt q.num.toNat : ℚ) / (isqrt q.den : ℚ)

/-- Damping factor (line 311): `0.84 + (frameCount / maxFrames) * 0.08`. -/
def damping (fc : ℕ) : ℚ := 0.84 + ((fc : ℚ) / 400) * 0.08

/-- Position/velocity sanitization at the top of the per-node physics
body (lines 273-276). -/
def sanitizePos (cfg : SimConfig) (p : NodePos) : NodePos :=
  { p with
    x := sanQ p.x (cfg.width / 2) 0 cfg.width,
    y := sanQ p.y (cfg.height / 2) 0 cfg.height,
    vx := sanQ p.vx 0 (-20) 20,
    vy := sanQ p.vy 0 (-20) 20 }

/-- One inner-loop repulsion contribution (lines 278-301): node `j`
pushes the node being processed (`p1`, at outer index `i`) away. -/
def repelUpdate (cfg : SimConfig) (fc : ℕ) (i : ℕ) (p1 : NodePos)
    (jp : ℕ × NodePos) : NodePos :=
  if i == jp.1 then p1
  else
    let p2 := jp.2
    let dx := p1.x - p2.x
    let dy := p1.y - p2.y
    let distSquared := dx * dx + dy * dy
    let dist := cfg.sqrtFn distSquared
    let effectiveDist := max dist 10
    let minDist := p1.radius + p2.radius + 70
    if effectiveDist < minDist * 2.5 then
      let forceMagnitude :=
        min ((1400 * (1 - (fc : ℚ) / 400)) / (effectiveDist * effectiveDist)) 15
      let forceX := dx / effectiveDist * forceMagnitude * 0.1
      let forceY := dy / effectiveDist * forceMagnitude * 0.1
      { p1 with vx := p1.vx + sanQ forceX 0 (-5) 5, vy := p1.vy + sanQ forceY 0 (-5) 5 }
    else p1

def applyRepulsion (cfg : SimConfig) (fc : ℕ) (arr : List NodePos) (i : ℕ)
    (p : NodePos) : NodePos :=
  arr.enum.foldl (repelUpdate cfg fc i) p

/-- The centering velocity increment (lines 303-308): zero at distance
`≤ 380` from the canvas center, otherwise the componentwise clamp of
`0.0015 * (center - position)`. -/
def centeringPull (cx cy x y distToCenter : ℚ) : ℚ × ℚ :=
  if 380 < distToCenter then
    (sanQ ((cx - x) * 0.0015) 0 (-2) 2, sanQ ((cy - y) * 0.0015) 0 (-2) 2)
  else (0, 0)

def applyCentering (cfg : SimConfig) (p : NodePos) : NodePos :=
  let cx := cfg.width / 2
  let cy := cfg.height / 2
  let distToCenter := cfg.sqrtFn ((p.x - cx) ^ 2 + (p.y - cy) ^ 2)
  let pull := centeringPull cx cy p.x p.y distToCenter
  { p with vx := p.vx + pull.1, vy := p.vy + pull.2 }

/-- Damping then velocity cap (lines 310-317). -/
def dampAndCap (fc : ℕ) (p : NodePos) : NodePos :=
  { p with
    vx := sanQ (p.vx * damping fc) 0 (-10) 10,
    vy := sanQ (p.vy * damping fc) 0 (-10) 10 }

/-- Position integration and boundary clamp (lines 319-326): after
`x += vx`, the position is clamped to `[radius + 50, dimension - radius - 50]`. -/
def integratePos (cfg : SimConfig) (p : NodePos) : NodePos :=
  let padding := p.radius + 50
  { p with
    x := sanQ (p.x + p.vx) (cfg.width / 2) padding (cfg.width - padding),
    y := sanQ (p.y + p.vy) (cfg.height / 2) padding (cfg.height - padding) }

/-- The whole per-node body of `positions.forEach` (lines 271-327). -/
def processNode (cfg : SimConfig) (fc : ℕ) (arr : List NodePos) (i : ℕ)
    (p : NodePos) : NodePos :=
  integratePos cfg (dampAndCap fc (applyCentering cfg
    (applyRepulsion cfg fc arr i (sanitizePos cfg p))))

/-- One iteration of the outer `positions.forEach`: replace entry `i` of
the partially updated array by its processed value. -/
def nodeStep (cfg : SimConfig) (fc : ℕ) (arr : List NodePos) (i : ℕ) : List NodePos :=
  match arr.get? i with
  | some p => arr.set i (processNode cfg fc arr i p)
  | none => arr

/-- The outer `positions.forEach` with in-place mutation: indices are
processed in order, each reading the partially updated array. -/
def nodePhase (cfg : SimConfig) (fc : ℕ) (ps : List NodePos) : List NodePos :=
  (List.range ps.length).foldl (nodeStep cfg fc) ps

/-- The `nodeMap` lookup (lines 258-259): `Map.set` makes the last
position with a given node id win. -/
def idxOfId (arr : List NodePos) (nid : String) : Option ℕ :=
  ((arr.enum.filter (fun p => p.2.node.id == nid)).getLast?).map (fun p => p.1)

/-- The per-edge spring force (lines 329-354), mutating the source and
target positions found through `nodeMap`; edges whose endpoints are not
in the map are skipped. -/
def edgeUpdate (cfg : SimConfig) (arr : List NodePos) (edge : GraphEdge) :
    List NodePos :=
  match idxOfId arr edge.source, idxOfId arr edge.target with
  | some si, some ti =>
    match arr.get? si, arr.get? ti with
    | some source, some target =>
      let dx := target.x - source.x
      let dy := target.y - source.y
      let dist := cfg.sqrtFn (dx * dx + dy * dy)
      let effectiveDist := max dist 10
      let edgeWeight := sanitizeValue edge.weight 0.5 (some 0) (some 1)
      let idealDist := 160 + (1 - edgeWeight) * 120 + (source.radius + target.radius)
      let force := sanQ ((effectiveDist - idealDist) * 0.005 * max edgeWeight 0.1)
                    0 (-3) 3
      let forceX := dx / effectiveDist * force
      let forceY := dy / effectiveDist * force
      let arr1 := arr.set si
        { source with
          vx := source.vx + sanQ forceX 0 (-2) 2,
          vy := source.vy + sanQ forceY 0 (-2) 2 }
      match arr1.get? ti with
      | some t1 => arr1.set ti
          { t1 with
            vx := t1.vx - sanQ forceX 0 (-2) 2,
            vy := t1.vy - sanQ forceY 0 (-2) 2 }
      | none => arr1
    | _, _ => arr
  | _, _ => arr

/-- One full physics micro-step (the body of the `frameCount < maxFrames`
branch of `simulate`, lines 270-355): per-node forces and integration,
then the per-edge spring forces. -/
def stepPhysics (cfg : SimConfig) (fc : ℕ) (fEdges : List GraphEdge)
    (ps : List NodePos) : List NodePos :=
  fEdges.foldl (edgeUpdate cfg) (nodePhase cfg fc ps)

/-- The state of one animation-loop instantiation: the effect-local
`frameCount` plus the contents of `nodePositionsRef`. -/
structure LoopState where
  frameCount : ℕ
  positions : List NodePos
deriving DecidableEq, Repr

/-- One `simulate` frame (lines 264-357, state part): physics runs and
`frameCount` increments only while `frameCount < maxFrames = 400`; the
rest of the frame only draws. -/
def frame (cfg : SimConfig) (fEdges : List GraphEdge) (s : LoopState) : LoopState :=
  if s.frameCount < 400 then
    ⟨s.frameCount + 1, stepPhysics cfg s.frameCount fEdges s.positions⟩
  else s

def runFrames (cfg : SimConfig) (fEdges : List GraphEdge) : ℕ → LoopState → LoopState
  | 0, s => s
  | k + 1, s => runFrames cfg fEdges k (frame cfg fEdges s)

/-- Re-instantiation of the animation effect (line 680): any change of
`hoveredNode`, `hoveredEdge`, `selectedNode`, `zoom`, `pan`,
`showEdgeLabels`, `dimensions` or `filteredEdges` tears the effect down
and re-runs it with a fresh `let frameCount = 0`, keeping
`nodePositionsRef` (the positions) as they are. -/
def effectRestart (s : LoopState) : LoopState := ⟨0, s.positions⟩

/-- `handleZoomIn` (line 786). -/
def zoomIn (z : ℚ) : ℚ := min (z * 1.2) 3

/-- `handleZoomOut` (line 787). -/
def zoomOut (z : ℚ) : ℚ := max (z / 1.2) 0.3

inductive ZoomAct where
  | zin : ZoomAct
  | zout : ZoomAct
deriving DecidableEq, Repr

def zoomStep (z : ℚ) : ZoomAct → ℚ
  | .zin => zoomIn z
  | .zout => zoomOut z

/-- The zoom factor after a sequence of zoom button actions, starting
from the initial state `useState(0.85)` (line 124). -/
def zoomApply (acts : List ZoomAct) : ℚ := acts.foldl zoomStep 0.85

/-- `handleClick` (lines 769-784): result is the new `selectedNode`
paired with the URL passed to `window.open`, if any. -/
def handleClick (hovered selected : Option NodePos) (dragging : Bool) :
    Option NodePos × Option String :=
  match hovered, dragging with
  | some h, false =>
    if selected.map (fun s => s.node.id) = some h.node.id then
      (selected, if h.node.url != "" then some h.node.url else none)
    else (some h, none)
  | none, false => (none, none)
  | _, true => (selected, none)

/-- Helper node builder for concrete scenarios. -/
def mkNode (nid cat : String) (cred eng : JSVal) : GraphNode :=
  { id := nid, content := "", author := "", platform := "web", url := "",
    category := cat, credibilityScore := cred, engagementWeight := eng,
    verificationStatus := "unverified" }

def nodeA : GraphNode := mkNode "A" "verified" (.fin 0.5) (.fin 0.5)
def nodeB : GraphNode := mkNode "B" "verified" (.fin 0.5) (.fin 0.5)

def edgeAB : GraphEdge :=
  { source := "A", target := "B", weight := .fin 0.5,
    relationshipType := "similar", strengthCategory := "strong",
    similarityScore := .fin 0.5 }

def edgeGhost : GraphEdge :=
  { source := "A", target := "ghost", weight := .fin 0.9,
    relationshipType := "related", strengthCategory := "weak",
    similarityScore := .fin 0.9 }

def urlNode : GraphNode :=
  { mkNode "U" "verified" (.fin 0.5) (.fin 0.5) with url := "https://example.com" }

def urlPos : NodePos := ⟨0, 0, 0, 0, urlNode, 16, 16⟩

def nanNode : GraphNode := mkNode "N" "verified" .nan (.fin 0.5)

def fs100 : FilterState := ⟨"", "all", "all", 100⟩

def tieNodeX : GraphNode := mkNode "x1" "x" (.fin 0.5) (.fin 0.5)

def tieNodeY : GraphNode := mkNode "y1" "y" (.fin 0.5) (.fin 0.5)

def catNode : GraphNode := mkNode "C" "claim" (.fin 0.5) (.fin 0.5)

def edgeAC : GraphEdge :=
  { source := "A", target := "C", weight := .fin 0.5,
    relationshipType := "similar", strengthCategory := "strong",
    similarityScore := .fin 0.5 }

def fsCat : FilterState := ⟨"", "verified", "all", 0⟩

def cosW : ℚ → ℚ :=
  fun q => if q = -(1/2 : ℚ) then 0 else if q = (3/10 : ℚ) then 3/5 else -(3/5)

def sinW : ℚ → ℚ :=
  fun q => if q = -(1/2 : ℚ) then -1 else 4/5

def zeroRnd : ℕ → ℚ := fun _ => 0

def rumorNode (nid : String) : GraphNode := mkNode nid "rumor" (.fin 0) (.fin 0)

def cfgEx : SimConfig := ⟨1400, 900, ratSqrt⟩

def pX : NodePos := ⟨700, 450, 0, 0, nodeA, 16, 16⟩

def pY : NodePos := ⟨710, 450, 0, 0, nodeB, 16, 16⟩

def pFar390 : NodePos := ⟨1090, 450, 0, 0, nodeA, 16, 16⟩

def pFar400 : NodePos := ⟨1100, 450, 0, 0, nodeA, 16, 16⟩

/-! ## Helper lemmas -/

theorem sanQ_eq_clampQ (v fb lo hi : ℚ) : sanQ v fb lo hi = clampQ lo hi v := rfl

theorem clampQ_le (lo hi q : ℚ) : clampQ lo hi q ≤ hi := min_le_left _ _

theorem le_clampQ (lo hi q : ℚ) (h : lo ≤ hi) : lo ≤ clampQ lo hi q :=
  le_min h (le_max_left _ _)

theorem clampQ_mem (lo hi q : ℚ) (h : lo ≤ hi) :
    lo ≤ clampQ lo hi q ∧ clampQ lo hi q ≤ hi :=
  ⟨le_clampQ lo hi q h, clampQ_le lo hi q⟩

theorem clampQ_of_mem {lo hi q : ℚ} (h1 : lo ≤ q) (h2 : q ≤ hi) :
    clampQ lo hi q = q := by
  unfold clampQ
  rw [max_eq_right h1, min_eq_right h2]

theorem abs_clampQ_le (c q : ℚ) (h : 0 ≤ c) : |clampQ (-c) c q| ≤ c := by
  rcases clampQ_mem (-c) c q (by linarith) with ⟨h1, h2⟩
  exact abs_le.mpr ⟨h1, h2⟩

theorem contains_iff_mem (l : List String) (s : String) :
    l.contains s = true ↔ s ∈ l := by
  simp [List.contains_iff_exists_mem_beq, beq_iff_eq, eq_comm]

/-- Every entry produced by `initPositions` carries its source node and
the radius `getNodeRadius` computes from the full edge list. -/
theorem initPositions_shape (nodes : List GraphNode) (edges : List GraphEdge)
    (fs : FilterState) (w h : ℚ) (cosPi sinPi : ℚ → ℚ) (rnd : ℕ → ℚ) :
    (initPositions nodes edges fs w h cosPi sinPi rnd).map (fun p => p.node)
      = filteredNodes nodes fs ∧
    ∀ p ∈ initPositions nodes edges fs w h cosPi sinPi rnd,
      p.radius = getNodeRadius edges p.node := by
  constructor
  · simp only [initPositions]
    rw [List.map_map]
    exact (List.map_congr_left (fun q _ => rfl)).trans (List.enum_map_snd _)
  · intro p hp
    simp only [initPositions] at hp
    rcases List.mem_map.mp hp with ⟨q, _, rfl⟩
    rfl

theorem idxOfId_isSome (arr : List NodePos) (nid : String)
    (p : NodePos) (hp : p ∈ arr) (hid : p.node.id = nid) :
    (idxOfId arr nid).isSome := by
  unfold idxOfId
  rw [Option.isSome_map', List.getLast?_isSome]
  intro hnil
  have hmem : p ∈ arr.enum.map Prod.snd := by rw [List.enum_map_snd]; exact hp
  rcases List.mem_map.mp hmem with ⟨q, hq, hq2⟩
  have hfil : q ∈ arr.enum.filter (fun r => r.2.node.id == nid) := by
    refine List.mem_filter.mpr ⟨hq, ?_⟩
    simp [hq2, hid]
  rw [hnil] at hfil
  exact absurd hfil (List.not_mem_nil q)

/-! ## C1: edge filtering is a closure property -/

/-- C1.  The edge set used for physics and rendering (`filteredEdges`) is
exactly the subset of the supplied edges whose source and target ids both
belong to the filtered node set, for every filter state; every such edge
resolves to positions in the initialized layout (so dropped edges never
participate, and resolution never fails for kept edges); and in the
concrete scenario with nodes {A, B} and edges {(A,B,0.5), (A,ghost,0.9)},
exactly the A-B edge survives. -/
theorem C1_filteredEdges_closure :
    (∀ (nodes : List GraphNode) (edges : List GraphEdge) (fs : FilterState)
        (e : GraphEdge),
      e ∈ filteredEdges nodes edges fs ↔
        e ∈ edges ∧ e.source ∈ filteredNodeIds nodes fs
          ∧ e.target ∈ filteredNodeIds nodes fs) ∧
    (∀ (nodes : List GraphNode) (edges : List GraphEdge) (fs : FilterState)
        (e : GraphEdge) (w h : ℚ) (cosPi sinPi : ℚ → ℚ) (rnd : ℕ → ℚ),
      e ∈ filteredEdges nodes edges fs →
        (idxOfId (initPositions nodes edges fs w h cosPi sinPi rnd) e.source).isSome ∧
        (idxOfId (initPositions nodes edges fs w h cosPi sinPi rnd) e.target).isSome) ∧
    filteredEdges [nodeA, nodeB] [edgeAB, edgeGhost] noFilter = [edgeAB] := by
  have hmem : ∀ (nodes : List GraphNode) (edges : List GraphEdge) (fs : FilterState)
      (e : GraphEdge),
      e ∈ filteredEdges nodes edges fs ↔
        e ∈ edges ∧ e.source ∈ filteredNodeIds nodes fs
          ∧ e.target ∈ filteredNodeIds nodes fs := by
    intro nodes edges fs e
    unfold filteredEdges
    rw [List.mem_filter, Bool.and_eq_true, contains_iff_mem, contains_iff_mem]
  refine ⟨hmem, ?_, by decide⟩
  intro nodes edges fs e w h cosPi sinPi rnd he
  rcases (hmem nodes edges fs e).mp he with ⟨-, hs, ht⟩
  have hshape := initPositions_shape nodes edges fs w h cosPi sinPi rnd
  constructor
  · rcases List.mem_map.mp hs with ⟨n, hn, hnid⟩
    have : n ∈ (initPositions nodes edges fs w h cosPi sinPi rnd).map
        (fun p => p.node) := hshape.1 ▸ hn
    rcases List.mem_map.mp this with ⟨p, hp, hpn⟩
    exact idxOfId_isSome _ _ p hp (by rw [hpn, hnid])
  · rcases List.mem_map.mp ht with ⟨n, hn, hnid⟩
    have : n ∈ (initPositions nodes edges fs w h cosPi sinPi rnd).map
        (fun p => p.node) := hshape.1 ▸ hn
    rcases List.mem_map.mp this with ⟨p, hp, hpn⟩
    exact idxOfId_isSome _ _ p hp (by rw [hpn, hnid])

/-- Witness for C1: the characterization applied at the concrete
dangling-edge scenario. -/
theorem C1_witness :
    edgeAB ∈ filteredEdges [nodeA, nodeB] [edgeAB, edgeGhost] noFilter ∧
    ¬ edgeGhost ∈ filteredEdges [nodeA, nodeB] [edgeAB, edgeGhost] noFilter := by
  constructor
  · exact (C1_filteredEdges_closure.1 [nodeA, nodeB] [edgeAB, edgeGhost] noFilter
      edgeAB).mpr ⟨by decide, by decide, by decide⟩
  · intro hmem
    have h := (C1_filteredEdges_closure.1 [nodeA, nodeB] [edgeAB, edgeGhost] noFilter
      edgeGhost).mp hmem
    exact absurd h.2.2 (by decide)

/-! ## C2: render radius always lies in [12, 50] -/

/-- C2.  For every node — any incident-edge count, any engagement weight
and credibility score including negative, out-of-range, NaN and infinite
values — `getNodeRadius` lies in the configured band [12, 50]. -/
theorem C2_radius_band :
    ∀ (edges : List GraphEdge) (n : GraphNode),
      12 ≤ getNodeRadius edges n ∧ getNodeRadius edges n ≤ 50 := by
  intro edges n
  exact clampQ_mem 12 50 _ (by norm_num)

/-! ## C7: click semantics -/

/-- C7.  A non-dragging click on a hovered node that differs from the
selected one selects it and opens nothing; a click on the already
selected node opens its URL when present (nothing otherwise) and keeps
the selection; a click with no hovered node clears the selection. -/
theorem C7_click_semantics :
    ∀ (h : NodePos) (sel : Option NodePos),
      (sel.map (fun s => s.node.id) ≠ some h.node.id →
        handleClick (some h) sel false = (some h, none)) ∧
      (sel.map (fun s => s.node.id) = some h.node.id →
        (h.node.url ≠ "" → handleClick (some h) sel false = (sel, some h.node.url)) ∧
        (h.node.url = "" → handleClick (some h) sel false = (sel, none))) ∧
      handleClick none sel false = (none, none) := by
  intro h sel
  refine ⟨?_, ?_, rfl⟩
  · intro hne
    simp only [handleClick, if_neg hne]
  · intro heq
    constructor
    · intro hurl
      simp only [handleClick, if_pos heq, if_pos (bne_iff_ne.mpr hurl)]
    · intro hurl
      have : (h.node.url != "") = false := by simp [hurl]
      simp only [handleClick, if_pos heq, this, Bool.false_eq_true, if_false]

/-- Witness for C7: clicking the already-selected node with a URL opens
that URL and keeps the selection. -/
theorem C7_witness :
    handleClick (some urlPos) (some urlPos) false
      = (some urlPos, some "https://example.com") :=
  ((C7_click_semantics urlPos (some urlPos)).2.1 rfl).1 (by decide)

/-! ## C8: zoom bounds -/

theorem zoomStep_bounds (z : ℚ) (a : ZoomAct) (h1 : 0.3 ≤ z) (h2 : z ≤ 3) :
    0.3 ≤ zoomStep z a ∧ zoomStep z a ≤ 3 := by
  cases a with
  | zin =>
    constructor
    · exact le_min (by linarith) (by norm_num)
    · exact min_le_right _ _
  | zout =>
    constructor
    · exact le_max_right _ _
    · refine max_le ?_ (by norm_num)
      rw [div_le_iff₀ (by norm_num : (0 : ℚ) < 1.2)]
      linarith

theorem zoomFold_bounds (acts : List ZoomAct) :
    ∀ z : ℚ, 0.3 ≤ z → z ≤ 3 →
      0.3 ≤ acts.foldl zoomStep z ∧ acts.foldl zoomStep z ≤ 3 := by
  induction acts with
  | nil => intro z h1 h2; exact ⟨h1, h2⟩
  | cons a rest ih =>
    intro z h1 h2
    have h := zoomStep_bounds z a h1 h2
    exact ih (zoomStep z a) h.1 h.2

/-- C8.  Starting from the initial zoom 0.85, every sequence of zoom-in
(multiply by 1.2, capped at 3) and zoom-out (divide by 1.2, floored at
0.3) actions keeps the zoom factor inside [0.3, 3]. -/
theorem C8_zoom_bounds :
    ∀ acts : List ZoomAct, 0.3 ≤ zoomApply acts ∧ zoomApply acts ≤ 3 := by
  intro acts
  exact zoomFold_bounds acts 0.85 (by norm_num) (by norm_num)

/-! ## C9: NaN credibility always passes the credibility filter -/

/-- C9.  A node whose credibility score is NaN is never excluded by the
minimum-credibility check: the comparison `credibilityScore < threshold/100`
is false for NaN at every slider value (the filter sanitizes nothing
before comparing), so the node's filter fate is the same as with the
threshold at 0. -/
theorem C9_nan_passes_filter :
    ∀ (fs : FilterState) (n : GraphNode), n.credibilityScore = JSVal.nan →
      jsLtQ n.credibilityScore ((fs.credibilityThreshold : ℚ) / 100) = false ∧
      ∀ nodes : List GraphNode,
        (n ∈ filteredNodes nodes fs ↔
          n ∈ filteredNodes nodes { fs with credibilityThreshold := 0 }) := by
  intro fs n h
  constructor
  · rw [h]; rfl
  · intro nodes
    unfold filteredNodes
    rw [List.mem_filter, List.mem_filter]
    have : nodePassesFilter fs n
        = nodePassesFilter { fs with credibilityThreshold := 0 } n := by
      simp only [nodePassesFilter, h]
      rfl
    rw [this]

/-- Witness for C9: with the slider at its maximum (100), the NaN node
still passes the credibility comparison and the filter as a whole. -/
theorem C9_witness :
    jsLtQ nanNode.credibilityScore ((fs100.credibilityThreshold : ℚ) / 100) = false ∧
    (nanNode ∈ filteredNodes [nanNode] fs100 ↔
      nanNode ∈ filteredNodes [nanNode] { fs100 with credibilityThreshold := 0 }) :=
  ⟨(C9_nan_passes_filter fs100 nanNode rfl).1,
   (C9_nan_passes_filter fs100 nanNode rfl).2 [nanNode]⟩

/-! ## C5: deterministic stable descending category order -/

theorem insertDesc_perm (key : String → ℚ) (c : String) :
    ∀ l : List String, (insertDesc key c l).Perm (c :: l) := by
  intro l
  induction l with
  | nil => exact List.Perm.refl _
  | cons d ds ih =>
    unfold insertDesc
    by_cases h : key d ≤ key c
    · rw [if_pos h]
    · rw [if_neg h]
      exact (ih.cons d).trans (List.Perm.swap c d ds)

theorem sortDesc_perm (key : String → ℚ) :
    ∀ l : List String, (sortDesc key l).Perm l := by
  intro l
  induction l with
  | nil => exact List.Perm.refl _
  | cons c cs ih =>
    exact (insertDesc_perm key c (sortDesc key cs)).trans (ih.cons c)

theorem insertDesc_pairwise (key : String → ℚ) (c : String)
    (l : List String) (h : l.Pairwise (fun a b => key b ≤ key a)) :
    (insertDesc key c l).Pairwise (fun a b => key b ≤ key a) := by
  induction l with
  | nil => exact List.pairwise_singleton _ c
  | cons d ds ih =>
    rcases List.pairwise_cons.mp h with ⟨hd, hds⟩
    unfold insertDesc
    by_cases hk : key d ≤ key c
    · rw [if_pos hk]
      refine List.pairwise_cons.mpr ⟨?_, h⟩
      intro b hb
      rcases List.mem_cons.mp hb with rfl | hb2
      · exact hk
      · exact le_trans (hd b hb2) hk
    · rw [if_neg hk]
      refine List.pairwise_cons.mpr ⟨?_, ih hds⟩
      intro b hb
      have hb2 : b ∈ c :: ds := (insertDesc_perm key c ds).mem_iff.mp hb
      rcases List.mem_cons.mp hb2 with rfl | hb3
      · exact le_of_lt (lt_of_not_le hk)
      · exact hd b hb3

theorem sortDesc_pairwise (key : String → ℚ) :
    ∀ l : List String, (sortDesc key l).Pairwise (fun a b => key b ≤ key a) := by
  intro l
  induction l with
  | nil => exact List.Pairwise.nil
  | cons c cs ih => exact insertDesc_pairwise key c _ ih

theorem insertDesc_sublist_pres (key : String → ℚ) (c : String)
    {a b : String} : ∀ {l : List String},
    [a, b].Sublist l → [a, b].Sublist (insertDesc key c l) := by
  intro l
  induction l with
  | nil => intro h; exact absurd (List.eq_nil_of_sublist_nil h) (by simp)
  | cons d ds ih =>
    intro h
    unfold insertDesc
    by_cases hk : key d ≤ key c
    · rw [if_pos hk]
      exact h.cons c
    · rw [if_neg hk]
      cases h with
      | cons _ h2 => exact (ih h2).cons d
      | cons₂ _ h2 =>
        refine List.Sublist.cons₂ _ ?_
        have hb : b ∈ ds := (List.singleton_sublist).mp h2
        have hb2 : b ∈ insertDesc key c ds := (insertDesc_perm key c ds).mem_iff.mpr
          (List.mem_cons_of_mem c hb)
        exact List.singleton_sublist.mpr hb2

theorem insertDesc_head_before (key : String → ℚ) (a : String)
    {b : String} : ∀ {l : List String}, b ∈ l → key b ≤ key a →
    [a, b].Sublist (insertDesc key a l) := by
  intro l
  induction l with
  | nil => intro h; exact absurd h (List.not_mem_nil b)
  | cons d ds ih =>
    intro hb hk
    unfold insertDesc
    by_cases hd : key d ≤ key a
    · rw [if_pos hd]
      exact List.Sublist.cons₂ a (List.singleton_sublist.mpr hb)
    · rw [if_neg hd]
      rcases List.mem_cons.mp hb with rfl | hb2
      · exact absurd hk hd
      · exact (ih hb2 hk).cons d

theorem sortDesc_stable (key : String → ℚ) {a b : String} :
    ∀ {l : List String}, [a, b].Sublist l → key a = key b →
      [a, b].Sublist (sortDesc key l) := by
  intro l
  induction l with
  | nil => intro h _; exact absurd (List.eq_nil_of_sublist_nil h) (by simp)
  | cons c cs ih =>
    intro h hk
    unfold sortDesc
    cases h with
    | cons _ h2 => exact insertDesc_sublist_pres key c (ih h2 hk)
    | cons₂ _ h2 =>
      have hb : b ∈ sortDesc key cs :=
        (sortDesc_perm key cs).mem_iff.mpr (List.singleton_sublist.mp h2)
      exact insertDesc_head_before key a hb (le_of_eq hk.symm)

/-- C5.  `sortedCategories` orders the category names by descending mean
sanitized credibility (`catKey`), is a permutation of the insertion-order
category list, and breaks ties by insertion order (two categories with
equal mean credibility keep their relative order).  It is a pure function
of the node list — no jitter or randomness enters — so re-running
initialization on an unchanged node set reproduces the identical
ordering. -/
theorem C5_sortedCategories_spec (ns : List GraphNode) :
    (sortedCategories ns).Pairwise (fun a b => catKey ns b ≤ catKey ns a) ∧
    (sortedCategories ns).Perm (categoriesOf ns) ∧
    (∀ a b : String, catKey ns a = catKey ns b →
      [a, b].Sublist (categoriesOf ns) → [a, b].Sublist (sortedCategories ns)) := by
  refine ⟨sortDesc_pairwise _ _, sortDesc_perm _ _, ?_⟩
  intro a b hk hsub
  exact sortDesc_stable _ hsub hk

/-- Witness for C5: two categories with equal mean credibility keep their
insertion order after sorting. -/
theorem C5_witness :
    catKey [tieNodeX, tieNodeY] "x" = catKey [tieNodeX, tieNodeY] "y" ∧
    ["x", "y"].Sublist (categoriesOf [tieNodeX, tieNodeY]) ∧
    ["x", "y"].Sublist (sortedCategories [tieNodeX, tieNodeY]) := by
  refine ⟨by decide, by decide, ?_⟩
  exact (C5_sortedCategories_spec [tieNodeX, tieNodeY]).2.2 "x" "y" (by decide) (by decide)

/-! ## C10: radius and panel connection count ignore the filters -/

/-- C10.  The radius stored for every surviving node by layout
initialization is `getNodeRadius` over the full, unfiltered `edges`
prop — the same value for every filter state (the filter state and the
oracles are arbitrary here and absent from the result) — and the
info-panel connection count is the incident count over the same
unfiltered edge list. -/
theorem C10_radius_ignores_filters :
    ∀ (nodes : List GraphNode) (edges : List GraphEdge) (fs : FilterState)
      (w h : ℚ) (cosPi sinPi : ℚ → ℚ) (rnd : ℕ → ℚ) (n : GraphNode),
      n ∈ filteredNodes nodes fs →
      initRadius nodes edges fs w h cosPi sinPi rnd n
        = some (getNodeRadius edges n) ∧
      panelConnections edges n = connectionCount edges n := by
  intro nodes edges fs w h cosPi sinPi rnd n hn
  refine ⟨?_, rfl⟩
  have hshape := initPositions_shape nodes edges fs w h cosPi sinPi rnd
  have hn2 : n ∈ (initPositions nodes edges fs w h cosPi sinPi rnd).map
      (fun p => p.node) := hshape.1 ▸ hn
  rcases List.mem_map.mp hn2 with ⟨p, hp, hpn⟩
  have hex : ((initPositions nodes edges fs w h cosPi sinPi rnd).find?
      (fun q => q.node == n)).isSome := by
    rw [List.find?_isSome]
    exact ⟨p, hp, by simp [hpn]⟩
  rcases Option.isSome_iff_exists.mp hex with ⟨q, hq⟩
  have hqn : q.node = n := by
    have := List.find?_some hq
    exact beq_iff_eq.mp this
  have hqmem : q ∈ initPositions nodes edges fs w h cosPi sinPi rnd :=
    List.mem_of_find?_eq_some hq
  unfold initRadius
  rw [hq, Option.map_some']
  rw [hshape.2 q hqmem, hqn]

/-- Witness for C10: node A keeps the same initialized radius whether or
not the category filter removes node C (and with it the A-C edge). -/
theorem C10_witness :
    initRadius [nodeA, catNode] [edgeAC] noFilter 1400 900
        (fun _ => 0) (fun _ => 0) (fun _ => 0) nodeA
      = some (getNodeRadius [edgeAC] nodeA) ∧
    initRadius [nodeA, catNode] [edgeAC] fsCat 1400 900
        (fun _ => 0) (fun _ => 0) (fun _ => 0) nodeA
      = some (getNodeRadius [edgeAC] nodeA) :=
  ⟨(C10_radius_ignores_filters [nodeA, catNode] [edgeAC] noFilter 1400 900
      (fun _ => 0) (fun _ => 0) (fun _ => 0) nodeA (by decide)).1,
   (C10_radius_ignores_filters [nodeA, catNode] [edgeAC] fsCat 1400 900
      (fun _ => 0) (fun _ => 0) (fun _ => 0) nodeA (by decide)).1⟩

/-! ## C4: physics freeze after the 400-frame budget -/

/-- C4 (amended).  Within a single animation-effect instantiation, once
the effect-local `frameCount` has reached the 400-frame budget, any
number of further frames leaves the loop state — every node position and
velocity — exactly unchanged (the frame only re-draws). -/
theorem C4_frozen_after_budget :
    ∀ (cfg : SimConfig) (fEdges : List GraphEdge) (s : LoopState) (k : ℕ),
      400 ≤ s.frameCount → runFrames cfg fEdges k s = s := by
  intro cfg fEdges s k h
  induction k with
  | zero => rfl
  | succ n ih =>
    show runFrames cfg fEdges n (frame cfg fEdges s) = s
    rw [frame, if_neg (Nat.not_lt.mpr h)]
    exact ih

/-- Witness for C4: a concrete exhausted loop state stays frozen over
three further frames. -/
theorem C4_witness :
    runFrames cfgEx [] 3 ⟨400, [pX, pY]⟩ = ⟨400, [pX, pY]⟩ :=
  C4_frozen_after_budget cfgEx [] ⟨400, [pX, pY]⟩ 3 (le_refl 400)

/-- Counterexample for C4 as stated: with the budget exhausted a frame
is indeed a no-op, but a hover/zoom/pan/selection change re-runs the
animation effect (dependency list, line 680), which resets the
effect-local `frameCount` to 0 while keeping `nodePositionsRef`; the very
next frame then runs physics again and moves the nodes. -/
theorem C4_counterexample :
    frame cfgEx [] ⟨400, [pX, pY]⟩ = ⟨400, [pX, pY]⟩ ∧
    effectRestart ⟨400, [pX, pY]⟩ = ⟨0, [pX, pY]⟩ ∧
    (frame cfgEx [] (effectRestart ⟨400, [pX, pY]⟩)).positions ≠ [pX, pY] := by
  refine ⟨rfl, rfl, ?_⟩
  set_option maxRecDepth 4000 in decide

/-! ## C6: the centering pull -/

theorem damping_bounds (fc : ℕ) (h : fc < 400) :
    0.84 ≤ damping fc ∧ damping fc ≤ 0.92 := by
  have h0 : (0 : ℚ) ≤ (fc : ℚ) := Nat.cast_nonneg fc
  have h1 : (fc : ℚ) ≤ 400 := by exact_mod_cast Nat.le_of_lt h
  unfold damping
  constructor
  · nlinarith
  · nlinarith

/-- C6 (amended).  In a physics step, a node receives a centering
velocity increment exactly when its distance from the canvas center
(as computed by the square-root oracle) exceeds 380; the increment is
the componentwise clamp to [-2, 2] of `0.0015 * (center - position)` —
i.e. proportional to the node's full displacement from the center, not
to the excess over 380 — scaled by the frame's damping factor; at
distance ≤ 380 the velocity stays exactly zero.  (Stated for a
single-node system at rest, where repulsion and edge forces vanish.) -/
theorem C6_centering_characterization :
    ∀ (cfg : SimConfig) (fc : ℕ) (p : NodePos) (d : ℚ),
      fc < 400 →
      0 ≤ p.x → p.x ≤ cfg.width → 0 ≤ p.y → p.y ≤ cfg.height →
      p.vx = 0 → p.vy = 0 →
      cfg.sqrtFn ((p.x - cfg.width / 2) ^ 2 + (p.y - cfg.height / 2) ^ 2) = d →
      (d ≤ 380 →
        (processNode cfg fc [p] 0 p).vx = 0 ∧
        (processNode cfg fc [p] 0 p).vy = 0) ∧
      (380 < d →
        (processNode cfg fc [p] 0 p).vx
          = damping fc * clampQ (-2) 2 ((cfg.width / 2 - p.x) * 0.0015) ∧
        (processNode cfg fc [p] 0 p).vy
          = damping fc * clampQ (-2) 2 ((cfg.height / 2 - p.y) * 0.0015)) := by
  intro cfg fc p d hfc hx0 hxw hy0 hyh hvx hvy hd
  have hsan : sanitizePos cfg p = p := by
    have hx : sanQ p.x (cfg.width / 2) 0 cfg.width = p.x := by
      rw [sanQ_eq_clampQ]; exact clampQ_of_mem hx0 hxw
    have hy : sanQ p.y (cfg.height / 2) 0 cfg.height = p.y := by
      rw [sanQ_eq_clampQ]; exact clampQ_of_mem hy0 hyh
    have hvx2 : sanQ p.vx 0 (-20) 20 = p.vx := by
      rw [hvx, sanQ_eq_clampQ]; exact clampQ_of_mem (by norm_num) (by norm_num)
    have hvy2 : sanQ p.vy 0 (-20) 20 = p.vy := by
      rw [hvy, sanQ_eq_clampQ]; exact clampQ_of_mem (by norm_num) (by norm_num)
    unfold sanitizePos
    rw [hx, hy, hvx2, hvy2]
  have hrep : applyRepulsion cfg fc [p] 0 (sanitizePos cfg p) = p := by
    rw [hsan]
    show repelUpdate cfg fc 0 p (0, p) = p
    rfl
  have hproc : processNode cfg fc [p] 0 p
      = integratePos cfg (dampAndCap fc (applyCentering cfg p)) := by
    unfold processNode
    rw [hrep]
  have hdamp := damping_bounds fc hfc
  have habs : ∀ z : ℚ, -10 ≤ clampQ (-2) 2 z * damping fc
      ∧ clampQ (-2) 2 z * damping fc ≤ 10 := by
    intro z
    rcases abs_le.mp (abs_clampQ_le 2 z (by norm_num)) with ⟨h1, h2⟩
    constructor
    · nlinarith [hdamp.1, hdamp.2]
    · nlinarith [hdamp.1, hdamp.2]
  constructor
  · intro hle
    have hpull : centeringPull (cfg.width / 2) (cfg.height / 2) p.x p.y
        (cfg.sqrtFn ((p.x - cfg.width / 2) ^ 2 + (p.y - cfg.height / 2) ^ 2))
        = (0, 0) := by
      rw [hd]
      exact if_neg (not_lt.mpr hle)
    rw [hproc]
    simp only [applyCentering, dampAndCap, integratePos, hpull, hvx, hvy, add_zero,
      zero_mul, sanQ_eq_clampQ]
    rw [@clampQ_of_mem (-10) 10 0 (by norm_num) (by norm_num)]
    exact ⟨rfl, rfl⟩
  · intro hgt
    have hpull : centeringPull (cfg.width / 2) (cfg.height / 2) p.x p.y
        (cfg.sqrtFn ((p.x - cfg.width / 2) ^ 2 + (p.y - cfg.height / 2) ^ 2))
        = (clampQ (-2) 2 ((cfg.width / 2 - p.x) * 0.0015),
           clampQ (-2) 2 ((cfg.height / 2 - p.y) * 0.0015)) := by
      rw [hd]
      unfold centeringPull
      rw [if_pos hgt]
      rfl
    rw [hproc]
    simp only [applyCentering, dampAndCap, integratePos, hpull, hvx, hvy, zero_add,
      sanQ_eq_clampQ]
    constructor
    · rw [clampQ_of_mem (habs ((cfg.width / 2 - p.x) * 0.0015)).1
          (habs ((cfg.width / 2 - p.x) * 0.0015)).2, mul_comm]
    · rw [clampQ_of_mem (habs ((cfg.height / 2 - p.y) * 0.0015)).1
          (habs ((cfg.height / 2 - p.y) * 0.0015)).2, mul_comm]

/-- Witness for C6 (amended): a concrete node 390 from the center (excess
10) receives the damped clamped displacement-proportional pull. -/
theorem C6_witness :
    (processNode cfgEx 0 [pFar390] 0 pFar390).vx
      = damping 0 * clampQ (-2) 2 ((cfgEx.width / 2 - pFar390.x) * 0.0015) ∧
    (processNode cfgEx 0 [pFar390] 0 pFar390).vy
      = damping 0 * clampQ (-2) 2 ((cfgEx.height / 2 - pFar390.y) * 0.0015) :=
  (C6_centering_characterization cfgEx 0 pFar390 390 (by norm_num) (by decide)
    (by decide) (by decide) (by decide) rfl rfl (by decide)).2 (by norm_num)

/-- Counterexample for C6 as stated: two nodes at distances 390 and 400
from the center have excess distances 10 and 20 — the second twice the
first — yet the centering velocity increments are -0.4914 and -0.504,
not in ratio 2, because the code pulls proportionally to the whole
displacement `0.0015 * (center - position)` (clamped), not to the excess
over the 380 radius. -/
theorem C6_counterexample :
    cfgEx.sqrtFn ((pFar390.x - cfgEx.width / 2) ^ 2
      + (pFar390.y - cfgEx.height / 2) ^ 2) = 390 ∧
    cfgEx.sqrtFn ((pFar400.x - cfgEx.width / 2) ^ 2
      + (pFar400.y - cfgEx.height / 2) ^ 2) = 400 ∧
    ((400 : ℚ) - 380) = 2 * (390 - 380) ∧
    (processNode cfgEx 0 [pFar390] 0 pFar390).vx = -(2457/5000 : ℚ) ∧
    (processNode cfgEx 0 [pFar400] 0 pFar400).vx = -(63/125 : ℚ) ∧
    ¬ (-(63/125 : ℚ) = 2 * -(2457/5000 : ℚ)) := by
  refine ⟨by decide, by decide, by norm_num, by decide, by decide, by norm_num⟩

/-! ## C3: boundary containment -/

theorem repelUpdate_radius (cfg : SimConfig) (fc : ℕ) (i : ℕ) (p1 : NodePos)
    (jp : ℕ × NodePos) : (repelUpdate cfg fc i p1 jp).radius = p1.radius := by
  simp only [repelUpdate]
  split
  · rfl
  · split
    · rfl
    · rfl

theorem applyRepulsion_radius (cfg : SimConfig) (fc : ℕ) (arr : List NodePos)
    (i : ℕ) (p : NodePos) :
    (applyRepulsion cfg fc arr i p).radius = p.radius := by
  unfold applyRepulsion
  generalize arr.enum = l
  induction l generalizing p with
  | nil => rfl
  | cons a l ih =>
    show (l.foldl (repelUpdate cfg fc i) (repelUpdate cfg fc i p a)).radius = p.radius
    rw [ih (repelUpdate cfg fc i p a), repelUpdate_radius]

theorem processNode_radius (cfg : SimConfig) (fc : ℕ) (arr : List NodePos)
    (i : ℕ) (p : NodePos) :
    (processNode cfg fc arr i p).radius = p.radius := by
  show (applyRepulsion cfg fc arr i (sanitizePos cfg p)).radius = p.radius
  rw [applyRepulsion_radius]
  rfl

theorem processNode_bounds (cfg : SimConfig) (fc : ℕ) (arr : List NodePos)
    (i : ℕ) (p : NodePos) (hw : 200 ≤ cfg.width) (hh : 200 ≤ cfg.height)
    (hr : p.radius ≤ 50) :
    p.radius + 50 ≤ (processNode cfg fc arr i p).x ∧
    (processNode cfg fc arr i p).x ≤ cfg.width - (p.radius + 50) ∧
    p.radius + 50 ≤ (processNode cfg fc arr i p).y ∧
    (processNode cfg fc arr i p).y ≤ cfg.height - (p.radius + 50) := by
  obtain ⟨q, hq, hqr⟩ : ∃ q, processNode cfg fc arr i p = integratePos cfg q
      ∧ q.radius = p.radius :=
    ⟨dampAndCap fc (applyCentering cfg (applyRepulsion cfg fc arr i (sanitizePos cfg p))),
     rfl,
     by
      show (applyRepulsion cfg fc arr i (sanitizePos cfg p)).radius = p.radius
      rw [applyRepulsion_radius]
      rfl⟩
  rw [hq, ← hqr]
  rw [← hqr] at hr
  have hpadx : q.radius + 50 ≤ cfg.width - (q.radius + 50) := by linarith
  have hpady : q.radius + 50 ≤ cfg.height - (q.radius + 50) := by linarith
  have h1 := clampQ_mem (q.radius + 50) (cfg.width - (q.radius + 50)) (q.x + q.vx) hpadx
  have h2 := clampQ_mem (q.radius + 50) (cfg.height - (q.radius + 50)) (q.y + q.vy) hpady
  exact ⟨h1.1, h1.2, h2.1, h2.2⟩

theorem nodeStep_of_get? (cfg : SimConfig) (fc : ℕ) (arr : List NodePos)
    (i : ℕ) (p : NodePos) (h : arr.get? i = some p) :
    nodeStep cfg fc arr i = arr.set i (processNode cfg fc arr i p) := by
  unfold nodeStep
  rw [h]

theorem nodePhase_invariant (cfg : SimConfig) (fc : ℕ) (ps : List NodePos)
    (hw : 200 ≤ cfg.width) (hh : 200 ≤ cfg.height)
    (hr : ∀ p ∈ ps, p.radius ≤ 50) :
    ∀ n, n ≤ ps.length →
      ((List.range n).foldl (nodeStep cfg fc) ps).length = ps.length ∧
      (∀ i, n ≤ i →
        ((List.range n).foldl (nodeStep cfg fc) ps).get? i = ps.get? i) ∧
      (∀ i, i < n →
        ∃ q, ((List.range n).foldl (nodeStep cfg fc) ps).get? i = some q ∧
          q.radius ≤ 50 ∧
          q.radius + 50 ≤ q.x ∧ q.x ≤ cfg.width - (q.radius + 50) ∧
          q.radius + 50 ≤ q.y ∧ q.y ≤ cfg.height - (q.radius + 50)) := by
  intro n
  induction n with
  | zero =>
    intro _
    exact ⟨rfl, fun i _ => rfl, fun i h => absurd h (Nat.not_lt_zero i)⟩
  | succ m ih =>
    intro hle
    obtain ⟨hlen, hup, hdone⟩ := ih (Nat.le_of_succ_le hle)
    have hmlt : m < ps.length := hle
    have hp : ps.get? m = some (ps.get ⟨m, hmlt⟩) := List.get?_eq_get hmlt
    have hstep : (List.range (m + 1)).foldl (nodeStep cfg fc) ps
        = ((List.range m).foldl (nodeStep cfg fc) ps).set m
            (processNode cfg fc ((List.range m).foldl (nodeStep cfg fc) ps) m
              (ps.get ⟨m, hmlt⟩)) := by
      rw [List.range_succ, List.foldl_append]
      show nodeStep cfg fc _ m = _
      exact nodeStep_of_get? cfg fc _ m (ps.get ⟨m, hmlt⟩)
        (by rw [hup m (le_refl m)]; exact hp)
    rw [hstep]
    refine ⟨by rw [List.length_set]; exact hlen, ?_, ?_⟩
    · intro i hi
      rw [List.get?_set_ne _ _ (by omega : m ≠ i)]
      exact hup i (by omega)
    · intro i hi
      by_cases him : i = m
      · subst him
        refine ⟨processNode cfg fc ((List.range i).foldl (nodeStep cfg fc) ps) i
            (ps.get ⟨i, hmlt⟩), ?_, ?_⟩
        · exact List.get?_set_eq_of_lt _ (by rw [hlen]; exact hmlt)
        · have hpr : (ps.get ⟨i, hmlt⟩).radius ≤ 50 := hr _ (List.get_mem ps i hmlt)
          have hrad := processNode_radius cfg fc
            ((List.range i).foldl (nodeStep cfg fc) ps) i (ps.get ⟨i, hmlt⟩)
          have hb := processNode_bounds cfg fc
            ((List.range i).foldl (nodeStep cfg fc) ps) i (ps.get ⟨i, hmlt⟩) hw hh hpr
          rw [hrad]
          exact ⟨hpr, hb.1, hb.2.1, hb.2.2.1, hb.2.2.2⟩
      · obtain ⟨q, hq, hqprops⟩ := hdone i (by omega)
        exact ⟨q, by rw [List.get?_set_ne _ _ (by omega : m ≠ i)]; exact hq, hqprops⟩

theorem get?_set_proj (arr : List NodePos) (j : ℕ) (q qn : NodePos)
    (hj : arr.get? j = some q)
    (hx : qn.x = q.x) (hy : qn.y = q.y) (hrad : qn.radius = q.radius) :
    ∀ i, ((arr.set j qn).get? i).map (fun p => (p.x, p.y, p.radius))
      = (arr.get? i).map (fun p => (p.x, p.y, p.radius)) := by
  intro i
  by_cases h : j = i
  · subst h
    have hlt : j < arr.length := by
      by_contra hge
      rw [List.get?_eq_none.mpr (Nat.le_of_not_lt hge)] at hj
      exact Option.noConfusion hj
    rw [List.get?_set_eq_of_lt _ hlt, hj, Option.map_some', Option.map_some',
      hx, hy, hrad]
  · rw [List.get?_set_ne _ _ h]

theorem get?_set_vupdate (arr : List NodePos) (j : ℕ) (q2 : NodePos) (a b : ℚ)
    (hj : arr.get? j = some q2) :
    ∀ i, ((arr.set j { q2 with vx := a, vy := b }).get? i).map
        (fun p => (p.x, p.y, p.radius))
      = (arr.get? i).map (fun p => (p.x, p.y, p.radius)) :=
  get?_set_proj arr j q2 _ hj rfl rfl rfl

theorem edgeUpdate_preserves (cfg : SimConfig) (arr : List NodePos)
    (e : GraphEdge) :
    (edgeUpdate cfg arr e).length = arr.length ∧
    ∀ i, ((edgeUpdate cfg arr e).get? i).map (fun p => (p.x, p.y, p.radius))
      = (arr.get? i).map (fun p => (p.x, p.y, p.radius)) := by
  unfold edgeUpdate
  split
  case _ si ti hsi hti =>
    split
    case _ source target hsrc htgt =>
      dsimp only
      split
      case _ t1 ht1 =>
        constructor
        · rw [List.length_set, List.length_set]
        · intro i
          rw [get?_set_vupdate _ ti t1 _ _ ht1 i,
            get?_set_vupdate arr si source _ _ hsrc i]
      case _ ht1 =>
        constructor
        · rw [List.length_set]
        · intro i
          rw [get?_set_vupdate arr si source _ _ hsrc i]
    case _ h1 h2 => exact ⟨rfl, fun i => rfl⟩
  case _ h1 h2 => exact ⟨rfl, fun i => rfl⟩

theorem edgeFold_preserves (cfg : SimConfig) (es : List GraphEdge) :
    ∀ arr : List NodePos,
      (es.foldl (edgeUpdate cfg) arr).length = arr.length ∧
      ∀ i, ((es.foldl (edgeUpdate cfg) arr).get? i).map (fun p => (p.x, p.y, p.radius))
        = (arr.get? i).map (fun p => (p.x, p.y, p.radius)) := by
  induction es with
  | nil => exact fun arr => ⟨rfl, fun i => rfl⟩
  | cons e es ih =>
    intro arr
    have h1 := edgeUpdate_preserves cfg arr e
    have h2 := ih (edgeUpdate cfg arr e)
    exact ⟨h2.1.trans h1.1, fun i => (h2.2 i).trans (h1.2 i)⟩

theorem nodePhase_all (cfg : SimConfig) (fc : ℕ) (ps : List NodePos)
    (hw : 200 ≤ cfg.width) (hh : 200 ≤ cfg.height)
    (hr : ∀ p ∈ ps, p.radius ≤ 50) :
    (nodePhase cfg fc ps).length = ps.length ∧
    ∀ i, i < ps.length →
      ∃ q, (nodePhase cfg fc ps).get? i = some q ∧
        q.radius ≤ 50 ∧
        q.radius + 50 ≤ q.x ∧ q.x ≤ cfg.width - (q.radius + 50) ∧
        q.radius + 50 ≤ q.y ∧ q.y ≤ cfg.height - (q.radius + 50) := by
  have h := nodePhase_invariant cfg fc ps hw hh hr ps.length (le_refl _)
  exact ⟨h.1, fun i hi => h.2.2 i hi⟩

/-- C3 (amended).  After every physics micro-step — hence after any
positive number of steps, since the property is established from an
arbitrary pre-state and the radius bound is preserved — every node's
position lies within `[radius + 50, dimension - radius - 50]` on both
axes.  (The original claim extended this to zero steps; immediately
after layout initialization positions are only clamped to
`[50, dimension - 50]`, see `C3_init_counterexample`.) -/
theorem C3_step_containment :
    ∀ (cfg : SimConfig) (fc : ℕ) (fEdges : List GraphEdge) (ps : List NodePos),
      200 ≤ cfg.width → 200 ≤ cfg.height →
      (∀ p ∈ ps, p.radius ≤ 50) →
      ∀ p ∈ stepPhysics cfg fc fEdges ps,
        p.radius ≤ 50 ∧
        p.radius + 50 ≤ p.x ∧ p.x ≤ cfg.width - (p.radius + 50) ∧
        p.radius + 50 ≤ p.y ∧ p.y ≤ cfg.height - (p.radius + 50) := by
  intro cfg fc fEdges ps hw hh hr p hp
  rcases List.mem_iff_get?.mp hp with ⟨i, hi⟩
  have hfold := (edgeFold_preserves cfg fEdges (nodePhase cfg fc ps)).2 i
  unfold stepPhysics at hi
  rw [hi, Option.map_some'] at hfold
  rcases Option.map_eq_some'.mp hfold.symm with ⟨q, hq, hFq⟩
  have hnp := nodePhase_all cfg fc ps hw hh hr
  have hilt : i < ps.length := by
    by_contra hge
    rw [List.get?_eq_none.mpr (by rw [hnp.1]; omega)] at hq
    exact Option.noConfusion hq
  obtain ⟨q2, hq2, hprops⟩ := hnp.2 i hilt
  rw [hq2] at hq
  injection hq with hq
  rw [hq] at hprops
  have hx : q.x = p.x := congrArg (fun t => t.1) hFq
  have hy : q.y = p.y := congrArg (fun t => t.2.1) hFq
  have hrad : q.radius = p.radius := congrArg (fun t => t.2.2) hFq
  rw [← hx, ← hy, ← hrad]
  exact hprops

/-- Witness for C3 (amended): a single node at the canvas center stays in
the per-radius band after a step. -/
theorem C3_witness :
    pX.radius ≤ 50 ∧
    pX.radius + 50 ≤ pX.x ∧ pX.x ≤ cfgEx.width - (pX.radius + 50) ∧
    pX.radius + 50 ≤ pX.y ∧ pX.y ≤ cfgEx.height - (pX.radius + 50) :=
  C3_step_containment cfgEx 0 [] [pX] (by norm_num [cfgEx]) (by norm_num [cfgEx])
    (by
      intro p hp
      rw [List.mem_singleton.mp hp]
      decide)
    pX (by decide)

/-- Counterexample for C3 as stated ("including zero steps"): layout
initialization clamps positions only to `[50, dimension - 50]`
(lines 223-224), not to `[radius + 50, dimension - radius - 50]`.  Three
same-category nodes put the middle node at angle -π/2 (`cosW`/`sinW` are
exact there: cos(-π/2) = 0, sin(-π/2) = -1); with credibility 0 its raw
y is 450 - 400 - 30 = 20, clamped to y = 50, while its radius is 16 —
so y < radius + 50 = 66 immediately after initialization. -/
theorem C3_init_counterexample :
    (initPositions [rumorNode "a", rumorNode "b", rumorNode "c"] [] noFilter
        1400 900 cosW sinW zeroRnd).get? 1
      = some ⟨670, 50, 0, 0, rumorNode "b", 16, 16⟩ ∧
    ¬ ((16 : ℚ) + 50 ≤ 50) :=
  ⟨by decide, by norm_num⟩
